import Mathlib

/-!
Verification of the request-execution engine of the repository's HTTP client
wrappers.  The central definitions are a shallow embedding of
`CommonHTTPClient.Do` from the `httpclient` package
(src/utils/pretty_json_log.go, lines 146-238 of the concatenated file):
URL construction via `net/url.ResolveReference`, header merging via
`http.Header.Set`, the per-request timeout context, the single `logRequest`
call, the retry `for` loop, and the post-loop result handling.  The method
dispatch of the resty-backed wrapper (src/hwaasresty/httpclient.go) is
embedded separately for the unsupported-method claim.
-/

namespace HTTPClientSpec

/-- HTTP response as observed by the retry loop of `CommonHTTPClient.Do`:
the code under verification inspects only the status code, and buffers the
body as a byte sequence (modelled as `List Nat`). -/
structure Response where
  statusCode : Nat
  body : List Nat
  deriving Repr, DecidableEq

/-- Errors a send attempt can produce: a non-nil `error` from
`c.client.Do(req)`.  Transport failures are connection-level errors; the two
context errors are what `client.Do` returns once the request's context is
cancelled or past its deadline. -/
inductive HTTPError where
  | transport (msg : String)
  | contextCancelled
  | deadlineExceeded
  deriving Repr, DecidableEq

/-- A single-read byte stream, modelling an `io.Reader` such as the
`bytes.Reader` that `logRequest` installs as `req.Body`: `data` is the
underlying byte sequence and `pos` how much of it has already been read. -/
structure BodyStream where
  data : List Nat
  pos : Nat
  deriving Repr, DecidableEq

/-- Bytes still readable from the stream (what a send on this `req.Body`
delivers to the wire). -/
def streamRemaining (s : BodyStream) : List Nat := s.data.drop s.pos

/-- The stream after it has been read to EOF by a send; it is never rewound
by the source code. -/
def streamConsume (s : BodyStream) : BodyStream := ⟨s.data, s.data.length⟩

/-- Result of the retry `for` loop of `CommonHTTPClient.Do`: how many times
`c.client.Do` was invoked, how many `time.Sleep(c.retryBackoff)` calls
completed, the bytes each attempt read from `req.Body` and sent, and the
final values of the Go variables `resp` and `lastErr`. -/
structure LoopResult where
  attempts : Nat
  sleeps : Nat
  sentBodies : List (List Nat)
  resp : Option Response
  lastErr : Option HTTPError
  deriving Repr, DecidableEq

/-- The Go retry loop of `CommonHTTPClient.Do` (source lines 196-209):

    for attempt = 0; attempt <= c.maxRetries; attempt++ {
        resp, lastErr = c.client.Do(req)
        if lastErr == nil && resp.StatusCode < 500 { break }
        if attempt < c.maxRetries { time.Sleep(c.retryBackoff) }
    }

`fuel` is an upper bound on the remaining iterations; the caller passes
`(maxRetries + 1).toNat`, which the guard `attempt <= maxRetries` never
exceeds, so the embedding performs exactly the iterations of the Go loop.
Each invocation of `c.client.Do(req)` reads `req.Body` to EOF and sends the
bytes it obtained (recorded in `sentRev`, kept in reverse order); the
outcome of attempt `i` is `t i`.  A retriable outcome (non-nil error or
status >= 500) with `attempt < maxRetries` completes a full
`time.Sleep(c.retryBackoff)` - `time.Sleep` is not context-aware - and
loops.  `r0`/`e0` are the current values of the Go variables `resp` and
`lastErr` (both nil before the first iteration). -/
def doLoopAux (t : Nat → Except HTTPError Response) (maxRetries : Int) :
    Nat → Nat → BodyStream → List (List Nat) → Nat →
    Option Response → Option HTTPError → LoopResult
  | 0, attempt, _, sentRev, sleeps, r0, e0 => ⟨attempt, sleeps, sentRev.reverse, r0, e0⟩
  | fuel + 1, attempt, reqBody, sentRev, sleeps, r0, e0 =>
    if (attempt : Int) ≤ maxRetries then
      match t attempt with
      | .ok r =>
        if r.statusCode < 500 then
          ⟨attempt + 1, sleeps, (streamRemaining reqBody :: sentRev).reverse, some r, none⟩
        else if (attempt : Int) < maxRetries then
          doLoopAux t maxRetries fuel (attempt + 1) (streamConsume reqBody)
            (streamRemaining reqBody :: sentRev) (sleeps + 1) (some r) none
        else
          ⟨attempt + 1, sleeps, (streamRemaining reqBody :: sentRev).reverse, some r, none⟩
      | .error e =>
        if (attempt : Int) < maxRetries then
          doLoopAux t maxRetries fuel (attempt + 1) (streamConsume reqBody)
            (streamRemaining reqBody :: sentRev) (sleeps + 1) none (some e)
        else
          ⟨attempt + 1, sleeps, (streamRemaining reqBody :: sentRev).reverse, none, some e⟩
    else ⟨attempt, sleeps, sentRev.reverse, r0, e0⟩

/-- The retry loop entered at attempt 0 with nil `resp` and `lastErr`, as in
the source. -/
def doLoop (t : Nat → Except HTTPError Response) (maxRetries : Int)
    (reqBody : BodyStream) : LoopResult :=
  doLoopAux t maxRetries (maxRetries + 1).toNat 0 reqBody [] 0 none none

/-- Body handling of `logRequest` (source lines 241-252): when body logging
is enabled and the request carries a body, the body reader is drained into a
buffer once, before the first attempt, and `req.Body` is replaced by a fresh
reader over that buffer (`io.NopCloser(bytes.NewReader(buf.Bytes()))`).
When logging is disabled (or there is no body) `req.Body` stays the reader
that `http.NewRequestWithContext` wrapped.  Either way the readable content
before the first attempt is the same; nothing ever rewinds the reader
between attempts. -/
def logRequestBody (disableLogBody : Bool) (body : Option BodyStream) :
    Option BodyStream :=
  match body with
  | none => none
  | some s => if disableLogBody then some s else some ⟨streamRemaining s, 0⟩

/-- The `req.Body` stream with which the retry loop starts: a nil body reads
as empty. -/
def reqBodyOf (disableLogBody : Bool) (body : Option BodyStream) : BodyStream :=
  match logRequestBody disableLogBody body with
  | none => ⟨[], 0⟩
  | some s => s

/-- Outcome of a whole `Do` call.  `nilPanic` is the nil-pointer dereference
the post-loop code would hit when the loop body never ran (negative
`maxRetries`): `resp` is nil and `lastErr` is nil, so `resp.Body` on line
220 dereferences a nil `*http.Response`. -/
inductive DoOutcome where
  | ok (r : Response)
  | err (e : HTTPError)
  | nilPanic
  deriving Repr, DecidableEq

/-- Observable result of one `CommonHTTPClient.Do` call: observer events
(the single "Outgoing request" log emitted by `logRequest` before the loop,
and the single "Incoming response" log emitted by `logResponse` after it),
the attempt/sleep counts, the body bytes sent on each attempt, and the value
returned to the caller. -/
structure DoResult where
  beforeSendEvents : Nat
  afterReceiveEvents : Nat
  attempts : Nat
  sleeps : Nat
  sentBodies : List (List Nat)
  result : DoOutcome
  deriving Repr, DecidableEq

/-- Post-loop code of `CommonHTTPClient.Do` (source lines 211-237): a non-nil
`lastErr` is logged as an error (not an observer response event) and returned;
otherwise the response body is buffered, `logResponse` emits the single
"Incoming response" event, and the response is returned.  The before-send
count is 1 because `c.logRequest` is called exactly once, before the loop
(line 193). -/
def finishDo (lr : LoopResult) : DoResult :=
  match lr.lastErr with
  | some e => ⟨1, 0, lr.attempts, lr.sleeps, lr.sentBodies, .err e⟩
  | none =>
    match lr.resp with
    | some r => ⟨1, 1, lr.attempts, lr.sleeps, lr.sentBodies, .ok r⟩
    | none => ⟨1, 0, lr.attempts, lr.sleeps, lr.sentBodies, .nilPanic⟩

/-- `CommonHTTPClient.Do` from the point where the request exists (URL and
headers built): `logRequest` buffers the body and emits the before-send
event, the retry loop runs, and the post-loop code produces the caller's
result.  `t i` is the transport outcome of attempt `i`. -/
def CommonHTTPClientDo (disableLogBody : Bool) (body : Option BodyStream)
    (t : Nat → Except HTTPError Response) (maxRetries : Int) : DoResult :=
  finishDo (doLoop t maxRetries (reqBodyOf disableLogBody body))

/-- Transport as seen through a context that is cancelled while the loop is
inside backoff sleep number `k` (the `time.Sleep` after attempt `k`).
`time.Sleep` is not context-aware, so the sleep completes; every subsequent
`c.client.Do(req)` observes the cancelled context and fails immediately with
the context error, without network activity. -/
def cancelAwareTransport (cancelDuringSleep : Nat)
    (t : Nat → Except HTTPError Response) : Nat → Except HTTPError Response :=
  fun i => if cancelDuringSleep < i then .error .contextCancelled else t i

/-- Outcome classification of the loop condition `lastErr == nil &&
resp.StatusCode < 500`: an attempt is retriable when it produced an error or
a status >= 500. -/
def retriable (o : Except HTTPError Response) : Bool :=
  match o with
  | .error _ => true
  | .ok r => 500 ≤ r.statusCode

/- Header merging (source lines 174-182): `http.Header.Set` for the default
headers, then `http.Header.Set` for the per-request headers. -/

/-- Lookup of a header value by key: the value of the first pair carrying the
key (an `http.Header` built only through `Set` has at most one pair per
key). -/
def hlookup (k : String) : List (String × String) → Option String
  | [] => none
  | p :: t => if p.1 = k then some p.2 else hlookup k t

/-- `http.Header.Set(k, v)`: replaces the value stored under `k`, or appends
the pair when the key is absent.  Keys are modelled as already in canonical
MIME form, as Go canonicalises both maps' keys identically. -/
def headerSet (h : List (String × String)) (k v : String) :
    List (String × String) :=
  if h.any (fun p => p.1 == k) then
    h.map (fun p => if p.1 == k then (k, v) else p)
  else h ++ [(k, v)]

/-- Header installation in `CommonHTTPClient.Do`: iterate `Set` over
`c.defaultHeaders`, then over `opts.Headers`, starting from the fresh
request's empty header map.  Go map iteration order is unspecified, but the
keys within one map are distinct, so the resulting map does not depend on
the order; the embedding fixes list order. -/
def applyHeaders (defaultHeaders optsHeaders : List (String × String)) :
    List (String × String) :=
  optsHeaders.foldl (fun h p => headerSet h p.1 p.2)
    (defaultHeaders.foldl (fun h p => headerSet h p.1 p.2) [])

/-- First-defined choice between two optional values (`per-request wins`
shape of the merged header lookup). -/
def firstSome (a b : Option String) : Option String :=
  match a with
  | some v => some v
  | none => b

/- URL construction (source lines 147-166): with a configured base URL,
`c.baseURL.ResolveReference(&url.URL{Path: opts.Path})`, then
`q := reqURL.Query(); q.Set(k, v); reqURL.RawQuery = q.Encode()`. -/

/-- A parsed URL as used by the client: scheme, host, the absolute path as a
list of segments (path "/a/b" is `["a", "b"]`; a trailing slash contributes
a trailing empty segment), and the query as a list of key-value pairs
(`url.Values.Encode` additionally sorts keys, which only permutes the pair
multiset and is omitted). -/
structure GoURL where
  scheme : String
  host : String
  pathSegs : List String
  query : List (String × String)
  deriving Repr, DecidableEq

/-- Dot-segment removal performed by `net/url.resolvePath`: "." segments are
dropped and ".." pops the previously emitted segment (never above the
root). -/
def removeDotSegments (segs : List String) : List String :=
  (segs.foldl
    (fun acc s =>
      if s = "." then acc
      else if s = ".." then acc.tail
      else s :: acc) []).reverse

/-- `net/url.ResolveReference` for a reference URL that carries only a path,
as built by `&url.URL{Path: opts.Path}`.  `refAbs` records whether the path
string begins with "/" and `refSegs` are its segments (the empty path is
`refAbs = false, refSegs = []`).  Scheme and host always come from the base.
An empty reference path with an empty reference query keeps the base path
and query; otherwise the reference query (empty) replaces the base query and
the path is `resolvePath(base.Path, ref.Path)`: the reference path itself
when rooted, or the reference path merged onto the base path's directory
when relative, with dot segments removed. -/
def resolveReference (base : GoURL) (refAbs : Bool) (refSegs : List String) :
    GoURL :=
  { scheme := base.scheme
    host := base.host
    pathSegs :=
      if refAbs = false ∧ refSegs = [] then removeDotSegments base.pathSegs
      else removeDotSegments
        (if refAbs then refSegs else base.pathSegs.dropLast ++ refSegs)
    query := if refAbs = false ∧ refSegs = [] then base.query else [] }

/-- `url.Values.Set(k, v)` on the flattened pair list: drop every pair with
key `k`, then record the single pair `(k, v)`. -/
def querySet (q : List (String × String)) (k v : String) :
    List (String × String) :=
  q.filter (fun p => p.1 != k) ++ [(k, v)]

/-- Query-parameter installation (source lines 160-166): only when
`opts.QueryParams` is non-empty, `Set` each pair into the resolved URL's
query and re-encode. -/
def setQueryParams (u : GoURL) (params : List (String × String)) : GoURL :=
  if params = [] then u
  else { u with query := params.foldl (fun q p => querySet q p.1 p.2) u.query }

/-- The URL-construction phase of `CommonHTTPClient.Do` with a configured
(non-nil) base URL: resolve the request path against the base, then append
the query parameters.  On this path the construction cannot fail: parsing
only happens when `c.baseURL` is nil. -/
def buildReqURL (base : GoURL) (refAbs : Bool) (refSegs : List String)
    (params : List (String × String)) : GoURL :=
  setQueryParams (resolveReference base refAbs refSegs) params

/- Deadline composition (source lines 184-190 together with
`NewCommonHTTPClient`, lines 123-143).  Deadlines are absolute instants
(`Option Nat`, `none` meaning no deadline) measured from the start of the
call, so a duration d set now yields the deadline `d`. -/

/-- `context.WithTimeout(parent, d)`: the child's deadline is now + d, never
later than the parent's deadline. -/
def withTimeout (parent : Option Nat) (d : Nat) : Option Nat :=
  match parent with
  | none => some d
  | some p => some (min p d)

/-- Minimum of two optional deadlines (`none` = no deadline). -/
def optMin (a b : Option Nat) : Option Nat :=
  match a, b with
  | none, b => b
  | a, none => a
  | some x, some y => some (min x y)

/-- The deadline that actually governs a send in `CommonHTTPClient.Do`: the
caller's context, narrowed by `context.WithTimeout(ctx, opts.Timeout)` when
`opts.Timeout > 0` (lines 185-189), combined with the `http.Client`'s own
`Timeout` (the 30s default installed by `NewCommonHTTPClient` when no client
is supplied, lines 127-131), which Go's `http.Client` enforces on every
request it sends regardless of the request context. -/
def governingDeadline (ctxDeadline : Option Nat) (optsTimeout : Nat)
    (clientTimeout : Nat) : Option Nat :=
  let reqCtx :=
    if 0 < optsTimeout then withTimeout ctxDeadline optsTimeout else ctxDeadline
  withTimeout reqCtx clientTimeout

/-- Modelled from the spec's words of claim C5, for comparison with
`governingDeadline`: "if `spec.timeout` set, it overrides the client's
`overallTimeout` for this call only; the narrower of the caller-supplied
context deadline and this effective deadline governs". -/
def specClaimedGoverningDeadline (ctxDeadline : Option Nat) (optsTimeout : Nat)
    (clientTimeout : Nat) : Option Nat :=
  let effective := if 0 < optsTimeout then optsTimeout else clientTimeout
  withTimeout ctxDeadline effective

/-- Method dispatch of the resty-backed `CommonHTTPClient.Do`
(src/hwaasresty/httpclient.go, lines 141-159).  Header, query and body
installation happen before the switch and perform no network activity;
`send` models `req.Get` / `req.Post` / ... executing the request (resty
retries happen inside `send`).  The first component counts transport
executions started. -/
def hwaasrestyDo (method : String) (send : String → Except String Response)
    (path : String) : Nat × Except String Response :=
  if method = "GET" then (1, send path)
  else if method = "POST" then (1, send path)
  else if method = "PUT" then (1, send path)
  else if method = "DELETE" then (1, send path)
  else if method = "PATCH" then (1, send path)
  else if method = "HEAD" then (1, send path)
  else (0, .error "unsupported method")

/-! Loop step lemmas: one unfolding of `doLoopAux` per shape of the current
attempt's outcome, for use in the inductive claim proofs. -/

theorem doLoopAux_break (t : Nat → Except HTTPError Response) (m : Int)
    (F a : Nat) (reqBody : BodyStream) (sentRev : List (List Nat)) (sleeps : Nat)
    (r0 : Option Response) (e0 : Option HTTPError) (r : Response)
    (hg : (a : Int) ≤ m) (ht : t a = .ok r) (h5 : r.statusCode < 500) :
    doLoopAux t m (F + 1) a reqBody sentRev sleeps r0 e0 =
      ⟨a + 1, sleeps, (streamRemaining reqBody :: sentRev).reverse, some r, none⟩ := by
  simp only [doLoopAux, ht, if_pos hg, if_pos h5]

theorem doLoopAux_retry_ok (t : Nat → Except HTTPError Response) (m : Int)
    (F a : Nat) (reqBody : BodyStream) (sentRev : List (List Nat)) (sleeps : Nat)
    (r0 : Option Response) (e0 : Option HTTPError) (r : Response)
    (ht : t a = .ok r) (h5 : ¬ r.statusCode < 500) (hlt : (a : Int) < m) :
    doLoopAux t m (F + 1) a reqBody sentRev sleeps r0 e0 =
      doLoopAux t m F (a + 1) (streamConsume reqBody)
        (streamRemaining reqBody :: sentRev) (sleeps + 1) (some r) none := by
  simp only [doLoopAux, ht, if_pos (le_of_lt hlt), if_neg h5, if_pos hlt]

theorem doLoopAux_exhaust_ok (t : Nat → Except HTTPError Response) (m : Int)
    (F a : Nat) (reqBody : BodyStream) (sentRev : List (List Nat)) (sleeps : Nat)
    (r0 : Option Response) (e0 : Option HTTPError) (r : Response)
    (hg : (a : Int) ≤ m) (ht : t a = .ok r) (h5 : ¬ r.statusCode < 500)
    (hge : ¬ (a : Int) < m) :
    doLoopAux t m (F + 1) a reqBody sentRev sleeps r0 e0 =
      ⟨a + 1, sleeps, (streamRemaining reqBody :: sentRev).reverse, some r, none⟩ := by
  simp only [doLoopAux, ht, if_pos hg, if_neg h5, if_neg hge]

theorem doLoopAux_retry_err (t : Nat → Except HTTPError Response) (m : Int)
    (F a : Nat) (reqBody : BodyStream) (sentRev : List (List Nat)) (sleeps : Nat)
    (r0 : Option Response) (e0 : Option HTTPError) (e : HTTPError)
    (ht : t a = .error e) (hlt : (a : Int) < m) :
    doLoopAux t m (F + 1) a reqBody sentRev sleeps r0 e0 =
      doLoopAux t m F (a + 1) (streamConsume reqBody)
        (streamRemaining reqBody :: sentRev) (sleeps + 1) none (some e) := by
  simp only [doLoopAux, ht, if_pos (le_of_lt hlt), if_pos hlt]

theorem doLoopAux_exhaust_err (t : Nat → Except HTTPError Response) (m : Int)
    (F a : Nat) (reqBody : BodyStream) (sentRev : List (List Nat)) (sleeps : Nat)
    (r0 : Option Response) (e0 : Option HTTPError) (e : HTTPError)
    (hg : (a : Int) ≤ m) (ht : t a = .error e) (hge : ¬ (a : Int) < m) :
    doLoopAux t m (F + 1) a reqBody sentRev sleeps r0 e0 =
      ⟨a + 1, sleeps, (streamRemaining reqBody :: sentRev).reverse, none, some e⟩ := by
  simp only [doLoopAux, ht, if_pos hg, if_neg hge]

/-! Projections through the post-loop code. -/

theorem finishDo_beforeSend (lr : LoopResult) :
    (finishDo lr).beforeSendEvents = 1 := by
  unfold finishDo
  cases lr.lastErr with
  | some e => rfl
  | none => cases lr.resp with
    | some r => rfl
    | none => rfl

theorem finishDo_attempts (lr : LoopResult) :
    (finishDo lr).attempts = lr.attempts := by
  unfold finishDo
  cases lr.lastErr with
  | some e => rfl
  | none => cases lr.resp with
    | some r => rfl
    | none => rfl

theorem finishDo_sentBodies (lr : LoopResult) :
    (finishDo lr).sentBodies = lr.sentBodies := by
  unfold finishDo
  cases lr.lastErr with
  | some e => rfl
  | none => cases lr.resp with
    | some r => rfl
    | none => rfl

theorem finishDo_result_ok (lr : LoopResult) (r : Response)
    (h1 : lr.lastErr = none) (h2 : lr.resp = some r) :
    (finishDo lr).result = .ok r := by
  unfold finishDo
  rw [h1, h2]

theorem finishDo_not_nilPanic (lr : LoopResult)
    (h : lr.resp.isSome ∨ lr.lastErr.isSome) :
    (finishDo lr).result ≠ .nilPanic := by
  unfold finishDo
  cases hE : lr.lastErr with
  | some e => simp
  | none =>
    cases hR : lr.resp with
    | some r => simp
    | none => rw [hE, hR] at h; simp at h

theorem finishDo_afterReceive_iff (lr : LoopResult) :
    (finishDo lr).afterReceiveEvents = 1 ↔
      ∃ r, (finishDo lr).result = .ok r := by
  unfold finishDo
  cases hE : lr.lastErr with
  | some e => simp
  | none =>
    cases hR : lr.resp with
    | some r => simp
    | none => simp

/-- When every attempt yields a response with a 5xx status, the loop runs all
`N + 1` attempts and exits holding the last attempt's response and a nil
`lastErr`. -/
theorem doLoopAux_all_server_error (f : Nat → Response) (N : Nat)
    (hf : ∀ i, 500 ≤ (f i).statusCode) :
    ∀ (fuel a : Nat) (reqBody : BodyStream) (sentRev : List (List Nat))
      (sleeps : Nat) (r0 : Option Response) (e0 : Option HTTPError),
      a + fuel = N + 1 → a ≤ N →
      (doLoopAux (fun i => .ok (f i)) (N : Int) fuel a reqBody sentRev sleeps r0 e0).attempts
          = N + 1 ∧
      (doLoopAux (fun i => .ok (f i)) (N : Int) fuel a reqBody sentRev sleeps r0 e0).resp
          = some (f N) ∧
      (doLoopAux (fun i => .ok (f i)) (N : Int) fuel a reqBody sentRev sleeps r0 e0).lastErr
          = none := by
  intro fuel
  induction fuel with
  | zero => intro a _ _ _ _ _ hfa ha; omega
  | succ F ih =>
    intro a reqBody sentRev sleeps r0 e0 hfa ha
    have h5 : ¬ (f a).statusCode < 500 := by have := hf a; omega
    by_cases hlt : a < N
    · have hlt2 : (a : Int) < (N : Int) := by exact_mod_cast hlt
      rw [doLoopAux_retry_ok (fun i => .ok (f i)) (N : Int) F a reqBody sentRev
        sleeps r0 e0 (f a) rfl h5 hlt2]
      exact ih (a + 1) _ _ _ _ _ (by omega) (by omega)
    · have haN : a = N := by omega
      have hge : ¬ (a : Int) < (N : Int) := by
        simp only [Int.not_lt]
        exact_mod_cast Nat.le_of_eq haN.symm
      have hg : (a : Int) ≤ (N : Int) := by exact_mod_cast ha
      rw [doLoopAux_exhaust_ok (fun i => .ok (f i)) (N : Int) F a reqBody sentRev
        sleeps r0 e0 (f a) hg rfl h5 hge]
      subst haN
      exact ⟨rfl, rfl, rfl⟩

/-- When the first `k` attempts are retriable and attempt `k` yields a
response with a status below 500, the loop performs exactly `k + 1`
attempts and exits with that response and a nil `lastErr`. -/
theorem doLoopAux_first_terminal (t : Nat → Except HTTPError Response)
    (N k : Nat) (r : Response) (hkN : k ≤ N) (htk : t k = .ok r)
    (hr : r.statusCode < 500) (hpre : ∀ i, i < k → retriable (t i) = true) :
    ∀ (fuel a : Nat) (reqBody : BodyStream) (sentRev : List (List Nat))
      (sleeps : Nat) (r0 : Option Response) (e0 : Option HTTPError),
      a + fuel = N + 1 → a ≤ k →
      (doLoopAux t (N : Int) fuel a reqBody sentRev sleeps r0 e0).attempts = k + 1 ∧
      (doLoopAux t (N : Int) fuel a reqBody sentRev sleeps r0 e0).resp = some r ∧
      (doLoopAux t (N : Int) fuel a reqBody sentRev sleeps r0 e0).lastErr = none := by
  intro fuel
  induction fuel with
  | zero => intro a _ _ _ _ _ hfa ha; omega
  | succ F ih =>
    intro a reqBody sentRev sleeps r0 e0 hfa ha
    by_cases hak : a < k
    · have hltN : (a : Int) < (N : Int) := by
        have : a < N := lt_of_lt_of_le hak hkN
        exact_mod_cast this
      have hret := hpre a hak
      cases hta : t a with
      | ok ra =>
        have h5 : ¬ ra.statusCode < 500 := by
          rw [hta] at hret
          simp only [retriable, decide_eq_true_eq] at hret
          omega
        rw [doLoopAux_retry_ok t (N : Int) F a reqBody sentRev sleeps r0 e0 ra
          hta h5 hltN]
        exact ih (a + 1) _ _ _ _ _ (by omega) (by omega)
      | error e =>
        rw [doLoopAux_retry_err t (N : Int) F a reqBody sentRev sleeps r0 e0 e
          hta hltN]
        exact ih (a + 1) _ _ _ _ _ (by omega) (by omega)
    · have hak2 : a = k := by omega
      have hg : (a : Int) ≤ (N : Int) := by
        have : a ≤ N := le_trans ha hkN
        exact_mod_cast this
      subst hak2
      rw [doLoopAux_break t (N : Int) F a reqBody sentRev sleeps r0 e0 r hg htk hr]
      exact ⟨rfl, rfl, rfl⟩

/-- Once the loop body has run at least one iteration, the exit state carries
at least one attempt and a non-nil `resp` or `lastErr`. -/
theorem doLoopAux_at_least_one (t : Nat → Except HTTPError Response) (m : Int) :
    ∀ (fuel a : Nat) (reqBody : BodyStream) (sentRev : List (List Nat))
      (sleeps : Nat) (r0 : Option Response) (e0 : Option HTTPError),
      (a : Int) ≤ m → (a : Int) + (fuel : Int) = m + 1 →
      1 ≤ (doLoopAux t m fuel a reqBody sentRev sleeps r0 e0).attempts ∧
      ((doLoopAux t m fuel a reqBody sentRev sleeps r0 e0).resp.isSome ∨
       (doLoopAux t m fuel a reqBody sentRev sleeps r0 e0).lastErr.isSome) := by
  intro fuel
  induction fuel with
  | zero => intro a _ _ _ _ _ ha hfa; omega
  | succ F ih =>
    intro a reqBody sentRev sleeps r0 e0 ha hfa
    cases hta : t a with
    | ok ra =>
      by_cases h5 : ra.statusCode < 500
      · rw [doLoopAux_break t m F a reqBody sentRev sleeps r0 e0 ra ha hta h5]
        exact ⟨Nat.le_add_left 1 a, Or.inl rfl⟩
      · by_cases hlt : (a : Int) < m
        · rw [doLoopAux_retry_ok t m F a reqBody sentRev sleeps r0 e0 ra hta h5 hlt]
          exact ih (a + 1) _ _ _ _ _ (by omega) (by push_cast; omega)
        · rw [doLoopAux_exhaust_ok t m F a reqBody sentRev sleeps r0 e0 ra ha
            hta h5 hlt]
          exact ⟨Nat.le_add_left 1 a, Or.inl rfl⟩
    | error e =>
      by_cases hlt : (a : Int) < m
      · rw [doLoopAux_retry_err t m F a reqBody sentRev sleeps r0 e0 e hta hlt]
        exact ih (a + 1) _ _ _ _ _ (by omega) (by push_cast; omega)
      · rw [doLoopAux_exhaust_err t m F a reqBody sentRev sleeps r0 e0 e ha hta hlt]
        exact ⟨Nat.le_add_left 1 a, Or.inr rfl⟩

/-- C1: for every configured `maxRetries = N` and a transport that returns a
5xx status on every attempt, `Do` performs exactly `N + 1` send attempts and
then reports the final server-error outcome to the caller: the response of
the last attempt - the last underlying cause - is returned, not swallowed
(in this code the exhausted-5xx `ServerError` surfaces as that final 5xx
response with a nil Go error). -/
theorem do_all_5xx_attempts_and_final_server_error (N : Nat) (f : Nat → Response)
    (hf : ∀ i, 500 ≤ (f i).statusCode) (d : Bool) (b : Option BodyStream) :
    (CommonHTTPClientDo d b (fun i => .ok (f i)) (N : Int)).attempts = N + 1 ∧
    (CommonHTTPClientDo d b (fun i => .ok (f i)) (N : Int)).result = .ok (f N) ∧
    500 ≤ (f N).statusCode := by
  have key := doLoopAux_all_server_error f N hf (((N : Int) + 1).toNat) 0
    (reqBodyOf d b) [] 0 none none (by omega) (Nat.zero_le N)
  refine ⟨?_, ?_, hf N⟩
  · rw [CommonHTTPClientDo, doLoop, finishDo_attempts]
    exact key.1
  · rw [CommonHTTPClientDo, doLoop]
    exact finishDo_result_ok _ (f N) key.2.2 key.2.1

/-- Witness for C1 at `maxRetries = 2` and a transport that returns 503 on
every attempt: 3 send attempts, and the 503 response is returned. -/
theorem do_all_5xx_witness :
    (CommonHTTPClientDo false none (fun _ => .ok ⟨503, []⟩) ((2 : Nat) : Int)).attempts = 3 ∧
    (CommonHTTPClientDo false none (fun _ => .ok ⟨503, []⟩) ((2 : Nat) : Int)).result
      = .ok ⟨503, []⟩ := by
  have h := do_all_5xx_attempts_and_final_server_error 2 (fun _ => ⟨503, []⟩)
    (fun _ => by norm_num) false none
  exact ⟨h.1, h.2.1⟩

/-- C6: an attempt whose outcome is a response with status below 500
(4xx included) is terminal: with `k` retriable attempts before it, the loop
performs exactly `k + 1` send attempts and returns that response as a normal
response, not an error.  With a 200 on the first attempt (`k = 0`) this is
exactly 1 send attempt for every `maxRetries = N`. -/
theorem do_sub500_terminal (N k : Nat) (t : Nat → Except HTTPError Response)
    (r : Response) (hkN : k ≤ N) (htk : t k = .ok r) (hr : r.statusCode < 500)
    (hpre : ∀ i, i < k → retriable (t i) = true) (d : Bool) (b : Option BodyStream) :
    (CommonHTTPClientDo d b t (N : Int)).attempts = k + 1 ∧
    (CommonHTTPClientDo d b t (N : Int)).result = .ok r := by
  have key := doLoopAux_first_terminal t N k r hkN htk hr hpre
    (((N : Int) + 1).toNat) 0 (reqBodyOf d b) [] 0 none none (by omega)
    (Nat.zero_le k)
  constructor
  · rw [CommonHTTPClientDo, doLoop, finishDo_attempts]
    exact key.1
  · rw [CommonHTTPClientDo, doLoop]
    exact finishDo_result_ok _ r key.2.2 key.2.1

/-- Witness for C6 at `maxRetries = 3` with transport outcomes
`[503, 404, ...]`: the 404 on attempt 1 is terminal, 2 send attempts in
total, and the 404 comes back as a normal response. -/
theorem do_sub500_terminal_witness :
    (CommonHTTPClientDo false none
      (fun i => if i = 0 then .ok ⟨503, []⟩ else .ok ⟨404, []⟩) ((3 : Nat) : Int)).attempts = 2 ∧
    (CommonHTTPClientDo false none
      (fun i => if i = 0 then .ok ⟨503, []⟩ else .ok ⟨404, []⟩) ((3 : Nat) : Int)).result
      = .ok ⟨404, []⟩ := by
  have h := do_sub500_terminal 3 1
    (fun i => if i = 0 then .ok ⟨503, []⟩ else .ok ⟨404, []⟩) ⟨404, []⟩
    (by norm_num) rfl (by norm_num)
    (by intro i hi; have hz : i = 0 := by omega
        subst hz; decide) false none
  exact h

/-- C10: for `MaxRetries >= 0`, every `Do` call reaching the send loop
performs at least one send attempt, the loop exit state never has both
`resp` and `lastErr` nil, and the post-loop code therefore never hits the
nil-response dereference.  (The hypothesis is essential: the loop body is
skipped entirely when `maxRetries` is negative.) -/
theorem do_at_least_one_attempt (m : Int) (t : Nat → Except HTTPError Response)
    (d : Bool) (b : Option BodyStream) (hm : 0 ≤ m) :
    1 ≤ (CommonHTTPClientDo d b t m).attempts ∧
    ((doLoop t m (reqBodyOf d b)).resp.isSome ∨
     (doLoop t m (reqBodyOf d b)).lastErr.isSome) ∧
    (CommonHTTPClientDo d b t m).result ≠ .nilPanic := by
  have key := doLoopAux_at_least_one t m ((m + 1).toNat) 0 (reqBodyOf d b) [] 0
    none none (by exact_mod_cast hm) (by omega)
  refine ⟨?_, key.2, ?_⟩
  · rw [CommonHTTPClientDo, doLoop, finishDo_attempts]
    exact key.1
  · rw [CommonHTTPClientDo]
    exact finishDo_not_nilPanic _ key.2

/-- Witness for C10 at `maxRetries = 0` with a transport returning 200: one
attempt happens and the result is not the nil dereference. -/
theorem do_at_least_one_attempt_witness :
    1 ≤ (CommonHTTPClientDo false none (fun _ => .ok ⟨200, []⟩) 0).attempts ∧
    (CommonHTTPClientDo false none (fun _ => .ok ⟨200, []⟩) 0).result ≠ .nilPanic := by
  have h := do_at_least_one_attempt 0 (fun _ => .ok ⟨200, []⟩) false none
    (by norm_num)
  exact ⟨h.1, h.2.2⟩

/-- C2: evaluation at the failing input.  A request with body bytes
`[1, 2, 3]`, body logging enabled, `maxRetries = 1` and a transport that
returns 503 on every attempt makes 2 send attempts, but only the first sends
the buffered body: `logRequest` buffers the body once into `req.Body`
before the first attempt, the first `c.client.Do(req)` consumes that reader,
and nothing rewinds it, so the retry sends no body bytes - not the
identical bytes the claim requires. -/
theorem body_replay_failing_input :
    (CommonHTTPClientDo false (some ⟨[1, 2, 3], 0⟩)
      (fun _ => .ok ⟨503, []⟩) (1 : Int)).attempts = 2 ∧
    (CommonHTTPClientDo false (some ⟨[1, 2, 3], 0⟩)
      (fun _ => .ok ⟨503, []⟩) (1 : Int)).sentBodies = [[1, 2, 3], []] := by
  decide

/-- C3: evaluation at the failing input.  With `maxRetries = 2`, a 503 on
attempt 0 and the governing context cancelled during the first backoff
sleep, the loop does not stop: `time.Sleep` completes the full backoff, two
further send attempts are performed (each failing immediately with the
context error), a second full backoff sleep runs between them, and only
after exhausting the budget does `Do` return the cancellation error - not
the immediate, no-further-send termination the claim requires. -/
theorem cancellation_failing_input :
    (CommonHTTPClientDo false none
      (cancelAwareTransport 0 (fun _ => .ok ⟨503, []⟩)) (2 : Int)).attempts = 3 ∧
    (CommonHTTPClientDo false none
      (cancelAwareTransport 0 (fun _ => .ok ⟨503, []⟩)) (2 : Int)).sleeps = 2 ∧
    (CommonHTTPClientDo false none
      (cancelAwareTransport 0 (fun _ => .ok ⟨503, []⟩)) (2 : Int)).result
      = .err .contextCancelled := by
  decide

/-- C4 counterexample: a call with `maxRetries = 1` and a 503 on both
attempts performs 2 send attempts and both attempts produce responses, yet
exactly one before-send event ever fires (`logRequest` runs once, before the
loop) and exactly one after-receive event fires (`logResponse` runs once,
after the loop) - not one before-send per attempt as the claim states. -/
theorem observer_events_counterexample :
    (CommonHTTPClientDo false none (fun _ => .ok ⟨503, []⟩) (1 : Int)).attempts = 2 ∧
    (CommonHTTPClientDo false none (fun _ => .ok ⟨503, []⟩) (1 : Int)).beforeSendEvents = 1 ∧
    (CommonHTTPClientDo false none (fun _ => .ok ⟨503, []⟩) (1 : Int)).beforeSendEvents ≠
      (CommonHTTPClientDo false none (fun _ => .ok ⟨503, []⟩) (1 : Int)).attempts ∧
    (CommonHTTPClientDo false none (fun _ => .ok ⟨503, []⟩) (1 : Int)).afterReceiveEvents = 1 := by
  decide

/-- C4 amended: the before-send event is emitted exactly once per `Do` call
that reaches the send loop (before the first attempt), and the after-receive
event is emitted exactly once when the call's final outcome is a response
and never otherwise; errors reach the caller without an after-receive
event. -/
theorem observer_events_per_call (d : Bool) (b : Option BodyStream)
    (t : Nat → Except HTTPError Response) (m : Int) :
    (CommonHTTPClientDo d b t m).beforeSendEvents = 1 ∧
    ((CommonHTTPClientDo d b t m).afterReceiveEvents = 1 ↔
      ∃ r, (CommonHTTPClientDo d b t m).result = .ok r) := by
  rw [CommonHTTPClientDo]
  exact ⟨finishDo_beforeSend _, finishDo_afterReceive_iff _⟩

/-- C5 counterexample: with no caller deadline, a per-request timeout of 60
and a client overall timeout of 30, the code's governing deadline is 30 -
the `http.Client` timeout still applies - whereas the claimed override
semantics would give 60.  The per-request timeout does not override the
client's overall timeout. -/
theorem per_request_timeout_override_counterexample :
    governingDeadline none 60 30 = some 30 ∧
    specClaimedGoverningDeadline none 60 30 = some 60 ∧
    governingDeadline none 60 30 ≠ specClaimedGoverningDeadline none 60 30 := by
  decide

/-- C5 amended: a set per-request timeout narrows the request context for
that call only, but does not displace the client's overall timeout; the
narrowest of the caller-supplied context deadline, the per-request timeout
(when set) and the client's overall timeout governs the call. -/
theorem governing_deadline_is_min (c : Option Nat) (t T : Nat) :
    governingDeadline c t T =
      optMin c (optMin (if 0 < t then some t else none) (some T)) := by
  cases c with
  | none =>
    by_cases h : 0 < t <;>
      simp [governingDeadline, withTimeout, optMin, h]
  | some p =>
    by_cases h : 0 < t <;>
      simp [governingDeadline, withTimeout, optMin, h, Nat.min_assoc]

/-- C9: a `Do` call whose method is not one of the supported verbs returns
the unsupported-method error with zero transport executions started: the
failure happens before any network attempt and consumes no retry budget
(resty retries live inside the send that never starts). -/
theorem unsupported_method_fails_fast (method : String)
    (send : String → Except String Response) (path : String)
    (h : method ∉ (["GET", "POST", "PUT", "DELETE", "PATCH", "HEAD"] : List String)) :
    hwaasrestyDo method send path = (0, .error "unsupported method") := by
  simp only [List.mem_cons, List.mem_singleton, not_or] at h
  obtain ⟨h1, h2, h3, h4, h5, h6, _⟩ := h
  simp [hwaasrestyDo, h1, h2, h3, h4, h5, h6]

/-- Witness for C9: method "BREW" is rejected with no transport execution. -/
theorem unsupported_method_fails_fast_witness :
    hwaasrestyDo "BREW" (fun _ => .ok ⟨200, []⟩) "/posts"
      = (0, .error "unsupported method") := by
  exact unsupported_method_fails_fast "BREW" (fun _ => .ok ⟨200, []⟩) "/posts"
    (by decide)

/-! Header-merge lemmas. -/

theorem firstSome_none_right (a : Option String) : firstSome a none = a := by
  cases a <;> rfl

theorem hlookup_append (k : String) (l1 l2 : List (String × String)) :
    hlookup k (l1 ++ l2) = firstSome (hlookup k l1) (hlookup k l2) := by
  induction l1 with
  | nil => rfl
  | cons p t ih =>
    by_cases hp : p.1 = k
    · simp [hlookup, hp, firstSome]
    · simp [hlookup, hp, ih]

theorem hlookup_eq_none_of_not_key (k : String) (l : List (String × String))
    (h : k ∉ l.map Prod.fst) : hlookup k l = none := by
  induction l with
  | nil => rfl
  | cons p t ih =>
    simp only [List.map_cons, List.mem_cons, not_or] at h
    have hp : p.1 ≠ k := fun hc => h.1 hc.symm
    simp [hlookup, hp, ih h.2]

theorem hlookup_map_set_self (h : List (String × String)) (k v : String)
    (ha : h.any (fun p => p.1 == k) = true) :
    hlookup k (h.map (fun p => if p.1 == k then (k, v) else p)) = some v := by
  induction h with
  | nil => simp at ha
  | cons p t ih =>
    simp only [beq_iff_eq] at ih
    by_cases hp : p.1 = k
    · simp [hlookup, hp]
    · have hb : (p.1 == k) = false := by simp [hp]
      simp only [List.any_cons, hb, Bool.false_or] at ha
      simp [hlookup, hb, hp, ih ha]

theorem hlookup_map_set_ne (h : List (String × String)) (k v kq : String)
    (hne : kq ≠ k) :
    hlookup kq (h.map (fun p => if p.1 == k then (k, v) else p))
      = hlookup kq h := by
  induction h with
  | nil => rfl
  | cons p t ih =>
    simp only [beq_iff_eq] at ih
    by_cases hp : p.1 = k
    · have hpq : p.1 ≠ kq := by rw [hp]; exact fun hc => hne hc.symm
      have hkq : k ≠ kq := fun hc => hne hc.symm
      simp [hlookup, hp, hpq, hkq, ih]
    · have hb : (p.1 == k) = false := by simp [hp]
      simp [hlookup, hb, hp, ih]

theorem hlookup_headerSet_self (h : List (String × String)) (k v : String) :
    hlookup k (headerSet h k v) = some v := by
  unfold headerSet
  by_cases ha : h.any (fun p => p.1 == k) = true
  · rw [if_pos ha]
    exact hlookup_map_set_self h k v ha
  · rw [if_neg ha, hlookup_append]
    have hnone : hlookup k h = none := by
      refine hlookup_eq_none_of_not_key k h ?_
      intro hmem
      apply ha
      simp only [List.any_eq_true]
      obtain ⟨p, hp, hpk⟩ := List.mem_map.mp hmem
      exact ⟨p, hp, by simp [hpk]⟩
    simp [hnone, firstSome, hlookup]

theorem hlookup_headerSet_ne (h : List (String × String)) (k v kq : String)
    (hne : kq ≠ k) : hlookup kq (headerSet h k v) = hlookup kq h := by
  unfold headerSet
  by_cases ha : h.any (fun p => p.1 == k) = true
  · rw [if_pos ha]
    exact hlookup_map_set_ne h k v kq hne
  · rw [if_neg ha, hlookup_append]
    have hkq : k ≠ kq := fun hc => hne hc.symm
    have hsing : hlookup kq [(k, v)] = none := by
      simp [hlookup, hkq]
    rw [hsing, firstSome_none_right]

/-- Lookup after folding `http.Header.Set` over a map with distinct keys:
the folded pairs win over the initial header map, pairwise. -/
theorem hlookup_foldl_set (l : List (String × String)) :
    ∀ (h0 : List (String × String)) (k : String),
      (l.map Prod.fst).Nodup →
      hlookup k (l.foldl (fun h p => headerSet h p.1 p.2) h0)
        = firstSome (hlookup k l) (hlookup k h0) := by
  induction l with
  | nil => intro h0 k _; rfl
  | cons p t ih =>
    intro h0 k hnd
    obtain ⟨k0, v0⟩ := p
    simp only [List.map_cons, List.nodup_cons] at hnd
    rw [List.foldl_cons, ih (headerSet h0 k0 v0) k hnd.2]
    by_cases hk : k0 = k
    · subst hk
      have htn : hlookup k0 t = none :=
        hlookup_eq_none_of_not_key k0 t hnd.1
      simp [htn, firstSome, hlookup_headerSet_self, hlookup]
    · rw [hlookup_headerSet_ne h0 k0 v0 k (fun hc => hk hc.symm)]
      simp [hlookup, hk]

/-- C7: the outgoing headers of a `Do` call are `defaultHeaders` then the
per-request headers, both installed via `Header.Set`, so looking up any key
yields the per-request value when present and the default value otherwise:
the per-request header wins every key collision. -/
theorem merged_headers_request_wins (defaults opts : List (String × String))
    (k : String) (hd : (defaults.map Prod.fst).Nodup)
    (ho : (opts.map Prod.fst).Nodup) :
    hlookup k (applyHeaders defaults opts)
      = firstSome (hlookup k opts) (hlookup k defaults) := by
  unfold applyHeaders
  rw [hlookup_foldl_set opts _ k ho, hlookup_foldl_set defaults [] k hd]
  rw [show hlookup k ([] : List (String × String)) = none from rfl,
    firstSome_none_right]

/-- Witness for C7: default `Authorization: Bearer X` plus per-request
`Authorization: Bearer Y` gives the outgoing header `Bearer Y`. -/
theorem merged_headers_request_wins_witness :
    hlookup "Authorization"
      (applyHeaders [("Authorization", "Bearer X")] [("Authorization", "Bearer Y")])
      = some "Bearer Y" := by
  have h := merged_headers_request_wins [("Authorization", "Bearer X")]
    [("Authorization", "Bearer Y")] "Authorization" (by decide) (by decide)
  rw [h]
  decide

/-! URL-construction lemmas. -/

theorem removeDotSegments_foldl_no_dots (l : List String)
    (h : ∀ s ∈ l, s ≠ "." ∧ s ≠ "..") :
    ∀ acc : List String,
      l.foldl (fun acc s =>
        if s = "." then acc else if s = ".." then acc.tail else s :: acc) acc
        = l.reverse ++ acc := by
  induction l with
  | nil => intro acc; rfl
  | cons s t ih =>
    intro acc
    have hs := h s (List.mem_cons_self s t)
    have ht : ∀ x ∈ t, x ≠ "." ∧ x ≠ ".." := fun x hx => h x (List.mem_cons_of_mem s hx)
    rw [List.foldl_cons, if_neg hs.1, if_neg hs.2, ih ht (s :: acc)]
    simp

theorem removeDotSegments_id (l : List String)
    (h : ∀ s ∈ l, s ≠ "." ∧ s ≠ "..") : removeDotSegments l = l := by
  unfold removeDotSegments
  rw [removeDotSegments_foldl_no_dots l h []]
  simp

theorem mem_querySet_self (q : List (String × String)) (k v : String) :
    (k, v) ∈ querySet q k v := by
  simp [querySet]

theorem mem_querySet_of_key_ne (q : List (String × String)) (k v : String)
    (p : String × String) (h : p.1 ≠ k) (hm : p ∈ q) : p ∈ querySet q k v := by
  unfold querySet
  exact List.mem_append_left _ (List.mem_filter.mpr ⟨hm, by simp [h]⟩)

theorem mem_foldl_querySet_of_not_key (P : List (String × String)) :
    ∀ (q : List (String × String)) (p : String × String),
      p.1 ∉ P.map Prod.fst → p ∈ q →
      p ∈ P.foldl (fun q r => querySet q r.1 r.2) q := by
  induction P with
  | nil => intro q p _ hm; exact hm
  | cons r t ih =>
    intro q p hk hm
    simp only [List.map_cons, List.mem_cons, not_or] at hk
    rw [List.foldl_cons]
    exact ih _ p hk.2 (mem_querySet_of_key_ne q r.1 r.2 p hk.1 hm)

theorem mem_foldl_querySet (P : List (String × String))
    (hnd : (P.map Prod.fst).Nodup) :
    ∀ (q0 : List (String × String)) (p : String × String), p ∈ P →
      p ∈ P.foldl (fun q r => querySet q r.1 r.2) q0 := by
  induction P with
  | nil => intro q0 p hp; simp at hp
  | cons r t ih =>
    intro q0 p hp
    simp only [List.map_cons, List.nodup_cons] at hnd
    rw [List.foldl_cons]
    rcases List.mem_cons.mp hp with hpr | hpt
    · subst hpr
      refine mem_foldl_querySet_of_not_key t _ p hnd.1 ?_
      obtain ⟨k0, v0⟩ := p
      exact mem_querySet_self q0 k0 v0
    · exact ih hnd.2 _ p hpt

theorem setQueryParams_scheme (u : GoURL) (P : List (String × String)) :
    (setQueryParams u P).scheme = u.scheme := by
  unfold setQueryParams; split <;> rfl

theorem setQueryParams_host (u : GoURL) (P : List (String × String)) :
    (setQueryParams u P).host = u.host := by
  unfold setQueryParams; split <;> rfl

theorem setQueryParams_pathSegs (u : GoURL) (P : List (String × String)) :
    (setQueryParams u P).pathSegs = u.pathSegs := by
  unfold setQueryParams; split <;> rfl

/-- C8 amended: with a configured base URL the construction cannot fail, and
for every base, path and query map the built URL retains the base's scheme
and host; every query parameter (the keys of a Go map are distinct) appears
URL-encoded in the built URL's query - a multiset superset of the input
query; and a rooted path without dot segments replaces the base's path.  (A
relative path is instead merged onto the base path's directory per RFC 3986
- see the counterexample.) -/
theorem buildReqURL_properties (base : GoURL) (refAbs : Bool)
    (refSegs : List String) (params : List (String × String)) :
    (buildReqURL base refAbs refSegs params).scheme = base.scheme ∧
    (buildReqURL base refAbs refSegs params).host = base.host ∧
    ((params.map Prod.fst).Nodup →
      ∀ p ∈ params, p ∈ (buildReqURL base refAbs refSegs params).query) ∧
    (refAbs = true → (∀ s ∈ refSegs, s ≠ "." ∧ s ≠ "..") →
      (buildReqURL base refAbs refSegs params).pathSegs = refSegs) := by
  refine ⟨?_, ?_, ?_, ?_⟩
  · rw [buildReqURL, setQueryParams_scheme]
    rfl
  · rw [buildReqURL, setQueryParams_host]
    rfl
  · intro hnd p hp
    have hPne : params ≠ [] := by
      intro hc; subst hc; simp at hp
    rw [buildReqURL, setQueryParams, if_neg hPne]
    exact mem_foldl_querySet params hnd _ p hp
  · intro hA hdots
    rw [buildReqURL, setQueryParams_pathSegs]
    subst hA
    simp only [resolveReference, Bool.true_eq_false, false_and, if_false, if_true]
    exact removeDotSegments_id refSegs hdots

/-- C8 counterexample: resolving the relative path "posts" against base path
"/api/v1" yields path "/api/posts" - the reference path is merged onto the
base path's directory, it does not replace the base's path as the claim
states. -/
theorem buildReqURL_relative_path_counterexample :
    (resolveReference ⟨"https", "h", ["api", "v1"], []⟩ false ["posts"]).pathSegs
      = ["api", "posts"] ∧
    (resolveReference ⟨"https", "h", ["api", "v1"], []⟩ false ["posts"]).pathSegs
      ≠ ["posts"] := by
  decide

/-- Witness for C8 amended: base https://h/api/v1, rooted path "/posts" and
query limit=5 give scheme https, host h, path "/posts" and a query
containing limit=5. -/
theorem buildReqURL_properties_witness :
    (buildReqURL ⟨"https", "h", ["api", "v1"], []⟩ true ["posts"]
      [("limit", "5")]).scheme = "https" ∧
    (buildReqURL ⟨"https", "h", ["api", "v1"], []⟩ true ["posts"]
      [("limit", "5")]).host = "h" ∧
    ("limit", "5") ∈ (buildReqURL ⟨"https", "h", ["api", "v1"], []⟩ true
      ["posts"] [("limit", "5")]).query ∧
    (buildReqURL ⟨"https", "h", ["api", "v1"], []⟩ true ["posts"]
      [("limit", "5")]).pathSegs = ["posts"] := by
  have h := buildReqURL_properties ⟨"https", "h", ["api", "v1"], []⟩ true
    ["posts"] [("limit", "5")]
  exact ⟨h.1, h.2.1, h.2.2.1 (by decide) ("limit", "5") (by decide),
    h.2.2.2 rfl (by decide)⟩

end HTTPClientSpec
